import Mathlib

/-!
Verification of the Daily Assistant activity-aggregation and prompt-building
subsystem. The React frontend (`src/App.tsx`) is embedded directly; the Rust
backend commands (`scan_git_repos`, `call_ai`) are not part of the provided
sources, so the aggregator is modelled from the specification where a claim
depends on it.
-/

namespace DailyReview

/-- Boolean prefix test on character lists. -/
def prefixMatch : List Char → List Char → Bool
  | [], _ => true
  | _ :: _, [] => false
  | a :: p, b :: s => a == b && prefixMatch p s

/-- Boolean contiguous-substring test on character lists. -/
def infixMatch (p : List Char) : List Char → Bool
  | [] => p.isEmpty
  | b :: s => prefixMatch p (b :: s) || infixMatch p s

/-- Infix test on the underlying character lists: `strContains pat s` is true
when `pat` occurs as a contiguous substring of `s`. -/
def strContains (pat s : String) : Bool :=
  infixMatch pat.data s.data

/-- Whitespace characters recognised by the JavaScript `String.prototype.trim`
(ASCII whitespace plus NBSP, BOM and the Unicode space separators). -/
def isJsWhitespace (c : Char) : Bool :=
  c = ' ' || c = '\t' || c = '\n' || c = '\r' ||
  c = (Char.ofNat 0x0b) || c = (Char.ofNat 0x0c) ||
  c = (Char.ofNat 0xa0) || c = (Char.ofNat 0xfeff) ||
  c = (Char.ofNat 0x2028) || c = (Char.ofNat 0x2029) ||
  (0x2000 ≤ c.toNat && c.toNat ≤ 0x200a) || c = (Char.ofNat 0x3000) ||
  c = (Char.ofNat 0x1680) || c = (Char.ofNat 0x202f) || c = (Char.ofNat 0x205f)

/-- JavaScript `String.prototype.trim`: drop leading and trailing whitespace. -/
def jsTrim (s : String) : String :=
  String.mk ((s.data.dropWhile (isJsWhitespace ·)).reverse.dropWhile (isJsWhitespace ·)).reverse

/-- Manual log entry, from the `LogItem` interface in `App.tsx`. -/
structure LogItem where
  id : Option Nat
  content : String
  log_type : String
  timestamp : String
deriving DecidableEq, Repr

/-- Git commit record, from the `GitCommit` interface in `App.tsx`.
Optional fields of the TypeScript interface become `Option`. -/
structure GitCommit where
  hash : String
  message : String
  author : String
  time : Nat
  repo_name : Option String
  diff : Option String
deriving DecidableEq, Repr

/-- Review mode, the analysis / export string union in `App.tsx`
(export is a Lean keyword, hence the constructor name `exportMode`). -/
inductive ReviewMode where
  | analysis
  | exportMode
deriving DecidableEq, Repr

/-- Backend configuration, from the `AppConfig` interface in `App.tsx`. -/
structure AppConfig where
  api_key : String
  git_paths : List String
  provider : String
  model : String
  base_url : Option String
  custom_rules : String
  report_template : String
  deep_analysis : Bool
deriving DecidableEq, Repr

/-- Rendering of an optional string inside a JavaScript template literal:
an `undefined` value interpolates as the text `undefined`. -/
def jsInterp : Option String → String
  | some s => s
  | none => "undefined"

/-- One bullet of the manual-log list: a dash, a space, and the log content,
as interpolated in `generatePrompt`. -/
def logLine (l : LogItem) : String :=
  "- " ++ l.content

/-- The `logsText` local of `generatePrompt`: bullets joined by newlines. -/
def logsText (logs : List LogItem) : String :=
  String.intercalate "\n" (logs.map logLine)

/-- The head bullet of one git entry: a dash, the repository name in square
brackets, and the commit message, as interpolated in `generatePrompt`. -/
def gitBullet (g : GitCommit) : String :=
  "- [" ++ jsInterp g.repo_name ++ "] " ++ g.message

/-- The indented diff block appended to a git bullet when the commit has a
diff: a Code Diff Summary label followed by the diff between code fences. -/
def diffBlock (d : String) : String :=
  "\n  Code Diff Summary:\n```\n" ++ d ++ "\n```"

/-- Text of one git entry in `generatePrompt`. The source guards the diff
block with `if (g.diff)`, so an absent diff and an empty-string diff (both
falsy in JavaScript) render no block. -/
def gitEntryText (g : GitCommit) : String :=
  match g.diff with
  | some d => if d = "" then gitBullet g else gitBullet g ++ diffBlock d
  | none => gitBullet g

/-- The `gitText` local of `generatePrompt`: entries joined by newlines. -/
def gitText (gs : List GitCommit) : String :=
  String.intercalate "\n" (gs.map gitEntryText)

/-- The `baseInstruction` local of `generatePrompt`: a fixed summarisation
directive in analysis mode, the template embedded after a strict-adherence
preamble in export mode. -/
def baseInstruction (mode : ReviewMode) (report_template : String) : String :=
  match mode with
  | .analysis => "Provide a comprehensive summary, 3 improvements, and 1 key knowledge point. If code diffs are provided, use them to explain technical details."
  | .exportMode => "Strictly follow the format below:\n\nFormat Template:\n" ++ report_template

/-- Opening of the returned template literal, through the `Manual Logs:`
header (whitespace reproduced from the source literal). -/
def promptHeader : String :=
  "\n        Context:\n        Manual Logs:\n        "

/-- Separator between the manual-log section and the `Git Commits:` header. -/
def promptGitSep : String :=
  "\n        \n        Git Commits:\n        "

/-- Separator between the git section and the `System Instruction:` header. -/
def promptInstrSep : String :=
  "\n        \n        System Instruction:\n        "

/-- Separator between the instruction block and the `Additional User Rules:`
header. -/
def promptRulesSep : String :=
  "\n        \n        Additional User Rules:\n        "

/-- Closing whitespace of the returned template literal. -/
def promptTail : String :=
  "\n      "

/-- The `generatePrompt` function of `App.tsx`. The component state it reads
(`logs`, `gitLogs`, `config`) is passed explicitly. -/
def generatePrompt (logs : List LogItem) (gitLogs : List GitCommit)
    (mode : ReviewMode) (custom_rules report_template : String) : String :=
  promptHeader ++ logsText logs ++
  promptGitSep ++ gitText gitLogs ++
  promptInstrSep ++ baseInstruction mode report_template ++
  promptRulesSep ++ custom_rules ++
  promptTail

/-- The commit-diff preview rendered in the `Today` tab:
`commit.diff.substring(0, 150)` followed by the literal `...` marker
(`App.tsx`, commit list rendering). -/
def diffPreview (d : String) : String :=
  String.mk (d.data.take 150) ++ "..."

/-- Bundled arguments of `generatePrompt` (the component state it reads plus
its mode parameter), used to state determinism. -/
structure PromptInput where
  logs : List LogItem
  gitLogs : List GitCommit
  mode : ReviewMode
  custom_rules : String
  report_template : String
deriving DecidableEq, Repr

/-- One invocation of the Prompt Builder on bundled inputs. -/
def runPromptBuilder (i : PromptInput) : String :=
  generatePrompt i.logs i.gitLogs i.mode i.custom_rules i.report_template

/-- The `addGitPath` handler of `App.tsx`: append the pending path when it is
non-empty (JavaScript truthiness) and not already present; otherwise leave the
list unchanged. -/
def addGitPath (git_paths : List String) (newGitPath : String) : List String :=
  if newGitPath ≠ "" ∧ newGitPath ∉ git_paths then git_paths ++ [newGitPath]
  else git_paths

/-- The `removeGitPath` handler of `App.tsx`: drop every entry equal to the
given path. -/
def removeGitPath (git_paths : List String) (pathToRemove : String) : List String :=
  git_paths.filter (fun p => p ≠ pathToRemove)

/-- A user action on the configured repository-path list. -/
inductive GitPathOp where
  | add (p : String)
  | remove (p : String)
deriving DecidableEq, Repr

/-- Apply one repository-path action. -/
def applyGitPathOp (git_paths : List String) : GitPathOp → List String
  | .add p => addGitPath git_paths p
  | .remove p => removeGitPath git_paths p

/-- Apply a sequence of repository-path actions in order. -/
def applyGitPathOps (git_paths : List String) (ops : List GitPathOp) : List String :=
  ops.foldl applyGitPathOp git_paths

/-- Arguments of the `save_log` backend command as issued by `handleAddLog`. -/
structure SaveLogCall where
  content : String
  logType : String
deriving DecidableEq, Repr

/-- The `handleAddLog` handler of `App.tsx`: a blank input (whose JavaScript
`trim` is empty) returns early, issuing no save and leaving the pending text;
otherwise `save_log` is invoked with the raw content and type `manual`, and
the pending text is cleared when the save succeeds. Returns the issued save
call (if any) and the resulting pending-input text. -/
def handleAddLog (newLog : String) (saveOk : Bool) : Option SaveLogCall × String :=
  if jsTrim newLog = "" then (none, newLog)
  else if saveOk then (some ⟨newLog, "manual"⟩, "")
  else (some ⟨newLog, "manual"⟩, newLog)

/-- The tabs of the application. -/
inductive Tab where
  | log
  | review
  | settings
deriving DecidableEq, Repr

/-- The `call_ai` request payload built by `handleAiReview` in `App.tsx`. -/
structure AiRequest where
  provider : String
  api_key : String
  model : String
  prompt : String
  base_url : Option String
deriving DecidableEq, Repr

/-- The component state read and written by `handleAiReview`. -/
structure UiState where
  activeTab : Tab
  logs : List LogItem
  gitLogs : List GitCommit
  config : AppConfig
  reviewResult : String
  reviewMode : ReviewMode
  isAiLoading : Bool
deriving DecidableEq, Repr

/-- The `handleAiReview` handler of `App.tsx`. The `call_ai` backend command
is abstracted as a function from the request to a success or failure reply;
the returned list records every request actually issued. A missing API key
(empty string, falsy in JavaScript) redirects to the settings tab and issues
nothing; otherwise the prompt is generated, one request is issued, and a
success reply is stored in `reviewResult`. -/
def handleAiReview (s : UiState) (mode : ReviewMode)
    (callAi : AiRequest → Except String String) : UiState × List AiRequest :=
  if s.config.api_key = "" then
    ({ s with activeTab := Tab.settings }, [])
  else
    let s1 := { s with reviewMode := mode, isAiLoading := true }
    let prompt := generatePrompt s.logs s.gitLogs mode s.config.custom_rules
        s.config.report_template
    let req : AiRequest :=
      { provider := s.config.provider, api_key := s.config.api_key,
        model := s.config.model, prompt := prompt, base_url := s.config.base_url }
    match callAi req with
    | .ok r => ({ s1 with reviewResult := r, isAiLoading := false }, [req])
    | .error _ => ({ s1 with isAiLoading := false }, [req])

/-- Modelled from the spec: a commit record as the backend Commit Extractor
sees it, with the text the Diff Summarizer would produce for it. The Rust
backend (`scan_git_repos`) is not among the provided sources. -/
structure RawCommit where
  hash : String
  message : String
  author : String
  time : Nat
  diffText : String
deriving DecidableEq, Repr

/-- Modelled from the spec: a configured repository reference. `repoId` is
the identity of the underlying repository, so two references with different
paths may share it; `readable` is false for an inaccessible path. -/
structure RepoRef where
  path : String
  repoId : Nat
  name : String
  readable : Bool
  commits : List RawCommit
deriving DecidableEq, Repr

/-- Modelled from the spec: the half-open activity window [start, stop). -/
structure ActivityWindow where
  start : Nat
  stop : Nat
deriving DecidableEq, Repr

/-- Modelled from the spec: one commit of the merged aggregation result,
carrying the identity of its repository for deduplication. -/
structure ScanCommit where
  repoId : Nat
  hash : String
  message : String
  author : String
  time : Nat
  repo_name : String
  diff : Option String
deriving DecidableEq, Repr

/-- Membership of a commit timestamp in the half-open window. -/
def inWindow (w : ActivityWindow) (c : RawCommit) : Bool :=
  w.start ≤ c.time && c.time < w.stop

/-- Modelled from the spec: build one result commit, attaching the diff
summary exactly when deep analysis is enabled. -/
def toScanCommit (r : RepoRef) (deep : Bool) (c : RawCommit) : ScanCommit :=
  { repoId := r.repoId, hash := c.hash, message := c.message,
    author := c.author, time := c.time, repo_name := r.name,
    diff := if deep then some c.diffText else none }

/-- Merge order of the aggregation result: timestamp descending, ties broken
by hash lexical order. -/
def commitBefore (a b : ScanCommit) : Bool :=
  decide (b.time < a.time) || (a.time == b.time && !(decide (b.hash < a.hash)))

/-- Insertion step of the merge sort of the aggregation result. -/
def insertCommit (c : ScanCommit) : List ScanCommit → List ScanCommit
  | [] => [c]
  | d :: ds => if commitBefore c d then c :: d :: ds else d :: insertCommit c ds

/-- Sort the merged commit list by `commitBefore`. -/
def sortCommits (l : List ScanCommit) : List ScanCommit :=
  l.foldr insertCommit []

/-- Deduplication key of a result commit: repository identity and hash. -/
def scanKey (c : ScanCommit) : Nat × String :=
  (c.repoId, c.hash)

/-- Modelled from the spec: deduplicate by key, keeping the first occurrence;
`seen` accumulates the keys already emitted. -/
def dedupAux (seen : List (Nat × String)) : List ScanCommit → List ScanCommit
  | [] => []
  | c :: cs =>
    if scanKey c ∈ seen then dedupAux seen cs
    else c :: dedupAux (scanKey c :: seen) cs

/-- Deduplicate the sorted merge by (repository identity, hash). -/
def dedupCommits (l : List ScanCommit) : List ScanCommit :=
  dedupAux [] l

/-- Modelled from the spec: the `scan` operation of the Activity Aggregator
(backend command `scan_git_repos`). Unreadable repositories are skipped with
a warning; in-window commits are extracted per repository, enriched with a
diff summary only under deep analysis, concatenated, sorted by timestamp
descending with hash tie-break, and deduplicated by (repository identity,
hash) keeping the first occurrence. -/
def scan (repos : List RepoRef) (w : ActivityWindow) (deepAnalysis : Bool) :
    List ScanCommit × List String :=
  let usable := repos.filter (fun r => r.readable)
  let perRepo := usable.map
    (fun r => (r.commits.filter (inWindow w)).map (toScanCommit r deepAnalysis))
  let merged := perRepo.flatten
  (dedupCommits (sortCommits merged),
   (repos.filter (fun r => !r.readable)).map (fun r => r.path))

/-- Concrete commit with a 200-character diff, for the truncation analysis. -/
def cexDiff : String := String.mk (List.replicate 200 'a')

def cexCommit : GitCommit :=
  { hash := "h1", message := "add feature", author := "dev", time := 5,
    repo_name := some "repo", diff := some cexDiff }

/-- Concrete commit with a short diff. -/
def wCommitC1 : GitCommit :=
  { hash := "w1", message := "msg", author := "dev", time := 1,
    repo_name := some "repo", diff := some "abc" }

/-- Concrete commit with a short diff, second sample. -/
def wCommitC2 : GitCommit :=
  { hash := "w2", message := "msg2", author := "dev", time := 2,
    repo_name := some "repo", diff := some "dd" }

/-- Concrete readable repository with one in-window commit, and the commit
record the scan produces for it without deep analysis. -/
def wRepo : RepoRef :=
  { path := "/work/proj", repoId := 0, name := "proj", readable := true,
    commits := [{ hash := "h", message := "m", author := "dev", time := 5,
                  diffText := "full diff text" }] }

def wScanCommit : ScanCommit :=
  { repoId := 0, hash := "h", message := "m", author := "dev", time := 5,
    repo_name := "proj", diff := none }

/-- Concrete component state whose configured API key is empty. -/
def wUiState : UiState :=
  { activeTab := Tab.review, logs := [], gitLogs := [],
    config := { api_key := "", git_paths := [], provider := "openai",
                model := "gpt-4o", base_url := none, custom_rules := "",
                report_template := "", deep_analysis := false },
    reviewResult := "previous result", reviewMode := ReviewMode.analysis,
    isAiLoading := false }

end DailyReview

namespace DailyReview

theorem infixMatch_nil (y : List Char) : infixMatch [] y = true := by
  cases y <;> simp [infixMatch, prefixMatch]

theorem prefixMatch_self_append (p r : List Char) : prefixMatch p (p ++ r) = true := by
  induction p with
  | nil => simp [prefixMatch]
  | cons a p ih => simp [prefixMatch, ih]

theorem prefixMatch_extend (p x y : List Char) (h : prefixMatch p x = true) :
    prefixMatch p (x ++ y) = true := by
  induction p generalizing x with
  | nil => simp [prefixMatch]
  | cons a p ih =>
    cases x with
    | nil => simp [prefixMatch] at h
    | cons b s =>
      simp only [prefixMatch, Bool.and_eq_true, beq_iff_eq] at h
      simp only [List.cons_append, prefixMatch, Bool.and_eq_true, beq_iff_eq]
      exact ⟨h.1, ih s h.2⟩

theorem infixMatch_extend_left (p x y : List Char) (h : infixMatch p x = true) :
    infixMatch p (x ++ y) = true := by
  induction x with
  | nil =>
    simp [infixMatch, List.isEmpty_iff] at h
    subst h
    exact infixMatch_nil y
  | cons b s ih =>
    simp only [infixMatch, Bool.or_eq_true] at h
    simp only [List.cons_append, infixMatch, Bool.or_eq_true]
    rcases h with hp | hi
    · exact Or.inl (prefixMatch_extend p (b :: s) y hp)
    · exact Or.inr (ih hi)

theorem infixMatch_extend_right (p x y : List Char) (h : infixMatch p y = true) :
    infixMatch p (x ++ y) = true := by
  induction x with
  | nil => simpa using h
  | cons b s ih =>
    simp only [List.cons_append, infixMatch, Bool.or_eq_true]
    exact Or.inr ih

theorem infixMatch_self (p : List Char) : infixMatch p p = true := by
  cases p with
  | nil => simp [infixMatch]
  | cons a l =>
    have h := prefixMatch_self_append (a :: l) []
    rw [List.append_nil] at h
    simp [infixMatch, h]

theorem strContains_append_left (p x y : String) (h : strContains p x = true) :
    strContains p (x ++ y) = true := by
  unfold strContains at h ⊢
  rw [String.data_append]
  exact infixMatch_extend_left _ _ _ h

theorem strContains_append_right (p x y : String) (h : strContains p y = true) :
    strContains p (x ++ y) = true := by
  unfold strContains at h ⊢
  rw [String.data_append]
  exact infixMatch_extend_right _ _ _ h

theorem strContains_self (s : String) : strContains s s = true :=
  infixMatch_self s.data

end DailyReview

namespace DailyReview

theorem mem_insertCommit {x c : ScanCommit} {l : List ScanCommit}
    (h : x ∈ insertCommit c l) : x = c ∨ x ∈ l := by
  induction l with
  | nil => simpa [insertCommit] using h
  | cons d ds ih =>
    by_cases hb : commitBefore c d = true
    · simp only [insertCommit, if_pos hb, List.mem_cons] at h
      rcases h with h | h | h
      · exact Or.inl h
      · exact Or.inr (by simp [h])
      · exact Or.inr (by simp [h])
    · simp only [insertCommit, if_neg hb, List.mem_cons] at h
      rcases h with h | h
      · exact Or.inr (by simp [h])
      · rcases ih h with h | h
        · exact Or.inl h
        · exact Or.inr (by simp [h])

theorem mem_sortCommits {x : ScanCommit} {l : List ScanCommit}
    (h : x ∈ sortCommits l) : x ∈ l := by
  induction l with
  | nil => simp [sortCommits] at h
  | cons a l ih =>
    have heq : sortCommits (a :: l) = insertCommit a (sortCommits l) := rfl
    rw [heq] at h
    rcases mem_insertCommit h with h | h
    · simp [h]
    · simp [ih h]

theorem mem_dedupAux {x : ScanCommit} {seen : List (Nat × String)}
    {l : List ScanCommit} (h : x ∈ dedupAux seen l) : x ∈ l := by
  induction l generalizing seen with
  | nil => simp [dedupAux] at h
  | cons c cs ih =>
    by_cases hs : scanKey c ∈ seen
    · simp only [dedupAux, if_pos hs] at h
      exact List.mem_cons_of_mem _ (ih h)
    · simp only [dedupAux, if_neg hs, List.mem_cons] at h
      rcases h with h | h
      · simp [h]
      · exact List.mem_cons_of_mem _ (ih h)

theorem key_notMem_of_mem_dedupAux {x : ScanCommit} {seen : List (Nat × String)}
    {l : List ScanCommit} (h : x ∈ dedupAux seen l) : scanKey x ∉ seen := by
  induction l generalizing seen with
  | nil => simp [dedupAux] at h
  | cons c cs ih =>
    by_cases hs : scanKey c ∈ seen
    · simp only [dedupAux, if_pos hs] at h
      exact ih h
    · simp only [dedupAux, if_neg hs, List.mem_cons] at h
      rcases h with h | h
      · subst h; exact hs
      · have hx := ih h
        intro hmem
        exact hx (List.mem_cons_of_mem _ hmem)

theorem pairwise_dedupAux (seen : List (Nat × String)) (l : List ScanCommit) :
    (dedupAux seen l).Pairwise (fun a b => scanKey a ≠ scanKey b) := by
  induction l generalizing seen with
  | nil => simp [dedupAux]
  | cons c cs ih =>
    by_cases hs : scanKey c ∈ seen
    · simp only [dedupAux, if_pos hs]
      exact ih seen
    · simp only [dedupAux, if_neg hs]
      refine List.Pairwise.cons ?_ (ih _)
      intro b hb heq
      have hx := key_notMem_of_mem_dedupAux hb
      exact hx (by rw [← heq]; exact List.mem_cons_self _ _)

theorem addGitPath_nodup {l : List String} {p : String} (h : l.Nodup) :
    (addGitPath l p).Nodup := by
  unfold addGitPath
  split
  · next hc =>
    refine List.nodup_append.2 ⟨h, List.nodup_singleton p, ?_⟩
    intro a ha hb
    simp only [List.mem_singleton] at hb
    subst hb
    exact hc.2 ha
  · exact h

theorem removeGitPath_nodup {l : List String} {p : String} (h : l.Nodup) :
    (removeGitPath l p).Nodup :=
  h.filter _

theorem applyGitPathOps_nodup {l : List String} {ops : List GitPathOp}
    (h : l.Nodup) : (applyGitPathOps l ops).Nodup := by
  induction ops generalizing l with
  | nil => simpa [applyGitPathOps] using h
  | cons op ops ih =>
    have h1 : (applyGitPathOp l op).Nodup := by
      cases op with
      | add p => exact addGitPath_nodup h
      | remove p => exact removeGitPath_nodup h
    simpa [applyGitPathOps, List.foldl_cons] using ih h1

end DailyReview

namespace DailyReview

set_option maxRecDepth 8192

/-- Claim C1 counterexample: a commit with a 200-character diff reaches the
prompt verbatim; the only truncation in the code, to 150 characters plus a
marker, happens in the preview rendering alone, so the prompt consumer
receives a diff value exceeding that bound with no marker. -/
theorem C1_counterexample :
    strContains cexDiff
      (generatePrompt [] [cexCommit] ReviewMode.analysis "" "") = true ∧
    cexDiff.length = 200 ∧
    (diffPreview cexDiff).length = 153 := by
  refine ⟨?_, by decide, by decide⟩
  have h0 : strContains cexDiff cexDiff = true := strContains_self _
  have h1 : strContains cexDiff ("\n  Code Diff Summary:\n```\n" ++ cexDiff) = true :=
    strContains_append_right _ _ _ h0
  have h2 : strContains cexDiff (diffBlock cexDiff) = true :=
    strContains_append_left _ _ _ h1
  have h3 : strContains cexDiff (gitEntryText cexCommit) = true := by
    have he : gitEntryText cexCommit = gitBullet cexCommit ++ diffBlock cexDiff := by
      simp [gitEntryText, cexCommit, cexDiff]
    rw [he]
    exact strContains_append_right _ _ _ h2
  have h4 : gitText [cexCommit] = gitEntryText cexCommit := rfl
  show strContains cexDiff
      (promptHeader ++ logsText [] ++ promptGitSep ++ gitText [cexCommit] ++
        promptInstrSep ++ baseInstruction ReviewMode.analysis "" ++
        promptRulesSep ++ "" ++ promptTail) = true
  apply strContains_append_left
  apply strContains_append_left
  apply strContains_append_left
  apply strContains_append_left
  apply strContains_append_left
  apply strContains_append_right
  rw [h4]
  exact h3

end DailyReview

namespace DailyReview

/-- Claim C1 (amended): the code does not truncate the diff attached to a
commit in the data or prompt path; the prompt entry embeds the diff verbatim.
The only truncation is in the presentation layer: the Today-tab preview
renders the first 150 characters of the diff followed by the `...` marker and
is therefore bounded by 153 characters. -/
theorem C1_amended (g : GitCommit) (d : String) (h1 : g.diff = some d)
    (h2 : d ≠ "") :
    gitEntryText g = gitBullet g ++ diffBlock d ∧
    strContains d (gitEntryText g) = true ∧
    (diffPreview d).length ≤ 153 := by
  have he : gitEntryText g = gitBullet g ++ diffBlock d := by
    simp [gitEntryText, h1, h2]
  refine ⟨he, ?_, ?_⟩
  · rw [he]
    apply strContains_append_right
    apply strContains_append_left
    apply strContains_append_right
    exact strContains_self d
  · simp only [diffPreview, String.length_append, String.length_mk]
    have ht : (d.data.take 150).length ≤ 150 := by
      simp [List.length_take]
    have hm : ("..." : String).length = 3 := rfl
    omega

/-- Claim C1 witness: the amended theorem applied to a concrete commit. -/
theorem C1_witness :
    gitEntryText wCommitC1 = gitBullet wCommitC1 ++ diffBlock "abc" ∧
    strContains "abc" (gitEntryText wCommitC1) = true ∧
    (diffPreview "abc").length ≤ 153 :=
  C1_amended wCommitC1 "abc" rfl (by decide)

/-- Claim C2: the Prompt Builder output is the fixed-order concatenation of
context header, manual-log bullets, git-commit bullets, mode instruction and
user rules; a git entry carries the indented diff block exactly when its diff
is present and non-empty. -/
theorem C2_section_order (logs : List LogItem) (gitLogs : List GitCommit)
    (mode : ReviewMode) (custom_rules report_template : String) :
    generatePrompt logs gitLogs mode custom_rules report_template =
      promptHeader ++ logsText logs ++ promptGitSep ++ gitText gitLogs ++
      promptInstrSep ++ baseInstruction mode report_template ++
      promptRulesSep ++ custom_rules ++ promptTail ∧
    (∀ g : GitCommit, ∀ d : String, g.diff = some d → d ≠ "" →
      gitEntryText g = gitBullet g ++ diffBlock d) ∧
    (∀ g : GitCommit, g.diff = none → gitEntryText g = gitBullet g) ∧
    (∀ g : GitCommit, g.diff = some "" → gitEntryText g = gitBullet g) := by
  refine ⟨rfl, ?_, ?_, ?_⟩
  · intro g d hd hne
    simp [gitEntryText, hd, hne]
  · intro g hd
    simp [gitEntryText, hd]
  · intro g hd
    simp [gitEntryText, hd]

/-- Claim C2 witness: the section-order theorem applied at concrete inputs. -/
theorem C2_witness :
    gitEntryText wCommitC2 = gitBullet wCommitC2 ++ diffBlock "dd" :=
  (C2_section_order [] [] ReviewMode.analysis "" "").2.1 wCommitC2 "dd" rfl
    (by decide)

/-- Claim C3: the Prompt Builder is a pure function of its inputs; two
invocations on identical inputs yield identical strings. -/
theorem C3_deterministic (i j : PromptInput) (h : i = j) :
    runPromptBuilder i = runPromptBuilder j := by
  rw [h]

/-- Claim C3 witness: determinism at a concrete input. -/
theorem C3_witness :
    runPromptBuilder ⟨[], [], ReviewMode.analysis, "r", "t"⟩ =
      runPromptBuilder ⟨[], [], ReviewMode.analysis, "r", "t"⟩ :=
  C3_deterministic _ _ rfl

end DailyReview

namespace DailyReview

/-- Claim C4: with deep analysis disabled, every commit in the scan result
has an unset diff field. -/
theorem C4_deep_off (repos : List RepoRef) (w : ActivityWindow)
    (c : ScanCommit) (h : c ∈ (scan repos w false).1) : c.diff = none := by
  simp only [scan] at h
  have h1 := mem_sortCommits (mem_dedupAux h)
  simp only [List.mem_flatten, List.mem_map, List.mem_filter] at h1
  obtain ⟨l, ⟨r, hr, hl⟩, hc⟩ := h1
  subst hl
  simp only [List.mem_map, List.mem_filter] at hc
  obtain ⟨raw, hraw, hct⟩ := hc
  subst hct
  simp [toScanCommit]

/-- Claim C4 witness: the deep-off theorem applied to a concrete scan. -/
theorem C4_witness :
    wScanCommit ∈ (scan [wRepo] ⟨0, 10⟩ false).1 ∧ wScanCommit.diff = none :=
  ⟨by decide, C4_deep_off [wRepo] ⟨0, 10⟩ wScanCommit (by decide)⟩

/-- Claim C5: within one aggregation result the commits are pairwise distinct
on the (repository identity, hash) key, so each hash occurs at most once per
underlying repository even when it is configured twice. -/
theorem C5_unique_keys (repos : List RepoRef) (w : ActivityWindow)
    (deepAnalysis : Bool) :
    ((scan repos w deepAnalysis).1).Pairwise
      (fun a b => scanKey a ≠ scanKey b) := by
  simp only [scan]
  exact pairwise_dedupAux [] _

/-- Claim C6: in export mode the instruction block embeds the caller template
verbatim after the strict-adherence preamble, and the template occurs verbatim
in the produced prompt; in analysis mode the instruction is independent of
the template. -/
theorem C6_mode_instruction (logs : List LogItem) (gitLogs : List GitCommit)
    (custom_rules t u : String) :
    generatePrompt logs gitLogs ReviewMode.exportMode custom_rules t =
      promptHeader ++ logsText logs ++ promptGitSep ++ gitText gitLogs ++
      promptInstrSep ++
      ("Strictly follow the format below:\n\nFormat Template:\n" ++ t) ++
      promptRulesSep ++ custom_rules ++ promptTail ∧
    strContains t
      (generatePrompt logs gitLogs ReviewMode.exportMode custom_rules t) =
      true ∧
    baseInstruction ReviewMode.analysis t = baseInstruction ReviewMode.analysis u := by
  refine ⟨rfl, ?_, rfl⟩
  show strContains t
      (promptHeader ++ logsText logs ++ promptGitSep ++ gitText gitLogs ++
        promptInstrSep ++
        ("Strictly follow the format below:\n\nFormat Template:\n" ++ t) ++
        promptRulesSep ++ custom_rules ++ promptTail) = true
  apply strContains_append_left
  apply strContains_append_left
  apply strContains_append_left
  apply strContains_append_right
  apply strContains_append_right
  exact strContains_self t

/-- Claim C7: with empty manual-log and commit lists both section bodies are
empty strings, yet the prompt still carries every fixed section header. -/
theorem C7_empty_sections (mode : ReviewMode) (custom_rules report_template : String) :
    logsText [] = "" ∧ gitText [] = "" ∧
    generatePrompt [] [] mode custom_rules report_template =
      promptHeader ++ promptGitSep ++ promptInstrSep ++
      baseInstruction mode report_template ++ promptRulesSep ++ custom_rules ++
      promptTail ∧
    strContains "Context:" (generatePrompt [] [] mode custom_rules report_template) = true ∧
    strContains "Manual Logs:" (generatePrompt [] [] mode custom_rules report_template) = true ∧
    strContains "Git Commits:" (generatePrompt [] [] mode custom_rules report_template) = true ∧
    strContains "System Instruction:" (generatePrompt [] [] mode custom_rules report_template) = true ∧
    strContains "Additional User Rules:" (generatePrompt [] [] mode custom_rules report_template) = true := by
  have h3 : generatePrompt [] [] mode custom_rules report_template =
      promptHeader ++ promptGitSep ++ promptInstrSep ++
      baseInstruction mode report_template ++ promptRulesSep ++ custom_rules ++
      promptTail := by
    simp [generatePrompt, logsText, gitText, String.intercalate]
  refine ⟨rfl, rfl, h3, ?_, ?_, ?_, ?_, ?_⟩ <;> rw [h3]
  · apply strContains_append_left
    apply strContains_append_left
    apply strContains_append_left
    apply strContains_append_left
    apply strContains_append_left
    apply strContains_append_left
    decide
  · apply strContains_append_left
    apply strContains_append_left
    apply strContains_append_left
    apply strContains_append_left
    apply strContains_append_left
    apply strContains_append_left
    decide
  · apply strContains_append_left
    apply strContains_append_left
    apply strContains_append_left
    apply strContains_append_left
    apply strContains_append_left
    apply strContains_append_right
    decide
  · apply strContains_append_left
    apply strContains_append_left
    apply strContains_append_left
    apply strContains_append_left
    apply strContains_append_right
    decide
  · apply strContains_append_left
    apply strContains_append_left
    apply strContains_append_right
    decide

end DailyReview

namespace DailyReview

/-- Claim C8: with an empty configured API key, `handleAiReview` issues no AI
request, leaves the stored review result unchanged, and returns after
switching to the settings tab. -/
theorem C8_missing_key (s : UiState) (mode : ReviewMode)
    (callAi : AiRequest → Except String String) (h : s.config.api_key = "") :
    handleAiReview s mode callAi = ({ s with activeTab := Tab.settings }, []) ∧
    (handleAiReview s mode callAi).1.reviewResult = s.reviewResult ∧
    (handleAiReview s mode callAi).2 = [] := by
  have he : handleAiReview s mode callAi = ({ s with activeTab := Tab.settings }, []) := by
    simp [handleAiReview, h]
  exact ⟨he, by rw [he], by rw [he]⟩

/-- Claim C8 witness: the missing-key theorem at a concrete state. -/
theorem C8_witness :
    handleAiReview wUiState ReviewMode.analysis (fun _ => Except.ok "reply") =
      ({ wUiState with activeTab := Tab.settings }, []) ∧
    (handleAiReview wUiState ReviewMode.analysis (fun _ => Except.ok "reply")).1.reviewResult =
      wUiState.reviewResult ∧
    (handleAiReview wUiState ReviewMode.analysis (fun _ => Except.ok "reply")).2 = [] :=
  C8_missing_key wUiState ReviewMode.analysis (fun _ => Except.ok "reply") rfl

/-- Claim C9: starting from a duplicate-free repository-path list, any
sequence of add and remove operations preserves freedom from duplicates, and
adding an empty or already-present path leaves the list unchanged. -/
theorem C9_nodup_invariant (l : List String) (ops : List GitPathOp)
    (h : l.Nodup) :
    (applyGitPathOps l ops).Nodup ∧
    addGitPath l "" = l ∧
    (∀ p ∈ l, addGitPath l p = l) := by
  refine ⟨applyGitPathOps_nodup h, by simp [addGitPath], ?_⟩
  intro p hp
  unfold addGitPath
  rw [if_neg]
  rintro ⟨-, hnot⟩
  exact hnot hp

/-- Claim C9 witness: the invariant theorem at a concrete list and op
sequence. -/
theorem C9_witness :
    (applyGitPathOps ["/a", "/b"]
      [GitPathOp.add "/c", GitPathOp.add "/a", GitPathOp.remove "/b",
       GitPathOp.add ""]).Nodup ∧
    addGitPath ["/a", "/b"] "" = ["/a", "/b"] ∧
    addGitPath ["/a", "/b"] "/a" = ["/a", "/b"] := by
  have h := C9_nodup_invariant ["/a", "/b"]
    [GitPathOp.add "/c", GitPathOp.add "/a", GitPathOp.remove "/b",
     GitPathOp.add ""] (by decide)
  exact ⟨h.1, h.2.1, h.2.2 "/a" (by decide)⟩

/-- Claim C10: a blank add-log input (empty JavaScript trim) issues no save
and keeps the pending text; a non-blank input issues `save_log` with the raw
content and log type `manual`. -/
theorem C10_blank_input (newLog : String) (saveOk : Bool) :
    (jsTrim newLog = "" → handleAddLog newLog saveOk = (none, newLog)) ∧
    (jsTrim newLog ≠ "" →
      (handleAddLog newLog saveOk).1 = some ⟨newLog, "manual"⟩) := by
  constructor
  · intro h
    simp [handleAddLog, h]
  · intro h
    cases saveOk <;> simp [handleAddLog, h]

/-- Claim C10 witness: the blank-input theorem at a whitespace-only input and
at a non-blank input. -/
theorem C10_witness :
    handleAddLog " \t " true = (none, " \t ") ∧
    (handleAddLog "fix bug" true).1 = some ⟨"fix bug", "manual"⟩ :=
  ⟨(C10_blank_input " \t " true).1 (by decide),
   (C10_blank_input "fix bug" true).2 (by decide)⟩

end DailyReview
